import Mathlib

/-!
Verification development for the subline audio core: the track prober
(`ProbeAudioTracks`), the track selector (`PickAudioTracks`) and the
decode/resample extractor (`ExtractAudio`).  The media-decoding library
(FFmpeg via go-astiav) is modelled as a script of call outcomes supplied
by the environment; the Go control flow is embedded faithfully, statement
by statement, including the `defer`-based resource cleanup (LIFO order of
registration) and the two terminal flush phases.
-/

set_option maxHeartbeats 1000000

/-- Mirrors the Go struct `AudioTrack` of audio.go: metadata for a single
audio stream in a media file.  `StreamIndex` is the container-native stream
index (Go `int`, modelled as `Int`). -/
structure AudioTrack where
  StreamIndex : Int
  Language : String
  Codec : String
  Channels : Int
  SampleRate : Int
deriving DecidableEq

instance : Inhabited AudioTrack := ⟨⟨0, "", "", 0, 0⟩⟩

/-- One observable terminal interaction of `PickAudioTracks`: a printed line
(`fmt.Printf`/`fmt.Println`) or a cursor-up-and-clear of `n` lines
(`clearLines(n)` of models.go). -/
inductive OutEv where
  | print (s : String)
  | clear (n : Nat)
deriving DecidableEq

/-- `strings.TrimSpace`: strips leading and trailing whitespace.  Implemented
structurally over the character list so that concrete inputs evaluate. -/
def trimSpace (s : String) : String :=
  ⟨((s.data.dropWhile Char.isWhitespace).reverse.dropWhile Char.isWhitespace).reverse⟩

/-- Case folding used to model `strings.EqualFold(line, tok)` for the ASCII
tokens "a"/"all": `lowerStr line = tok`. -/
def lowerStr (s : String) : String :=
  ⟨s.data.map Char.toLower⟩

/-- Digit-by-digit accumulator of `strconv.Atoi`'s decimal parse. -/
def atoiDigits : List Char → Nat → Option Nat
  | [], acc => some acc
  | c :: cs, acc =>
    if c.isDigit then atoiDigits cs (acc * 10 + (c.toNat - 48)) else none

/-- `strconv.Atoi`: optional sign, then one or more decimal digits; anything
else is a parse error (`none`).  Overflow is not modelled (the menu bounds
keep every accepted value tiny). -/
def atoi (s : String) : Option Int :=
  match s.data with
  | [] => none
  | '+' :: [] => none
  | '-' :: [] => none
  | '+' :: cs => (atoiDigits cs 0).map Int.ofNat
  | '-' :: cs => (atoiDigits cs 0).map fun n => -(n : Int)
  | cs => (atoiDigits cs 0).map Int.ofNat

/-- The display substitution performed inline at every user-facing print in
`PickAudioTracks`: `lang := t.Language; if lang == "" { lang = "und" }`. -/
def displayLang (t : AudioTrack) : String :=
  if t.Language = "" then "und" else t.Language

/-- The confirmation line `"  Using audio track %d (%s)\n"` printed on the
single-track and ordinal-selection paths. -/
def confirmLine (t : AudioTrack) : String :=
  s!"  Using audio track {t.StreamIndex} ({displayLang t})"

/-- The menu line `"    %d) stream %d — %s (%s, %dch, %dHz)\n"` printed for
the track at 0-based position `i`. -/
def trackLine (i : Nat) (t : AudioTrack) : String :=
  s!"    {i + 1}) stream {t.StreamIndex} — {displayLang t} ({t.Codec}, {t.Channels}ch, {t.SampleRate}Hz)"

/-- The prompt `"  Select track [1-%d or a]: "`. -/
def promptLine (k : Nat) : String :=
  s!"  Select track [1-{k} or a]: "

/-- The re-prompt error `"  Invalid choice. Enter a number between 1 and %d,
or 'a' for all."`. -/
def invalidLine (k : Nat) : String :=
  s!"  Invalid choice. Enter a number between 1 and {k}, or \x27a\x27 for all."

/-- The interactive menu printed before the selection loop: header line, one
line per track (with display-only language substitution), and the
`"    a) all tracks"` option. -/
def menuOut (tracks : List AudioTrack) : List OutEv :=
  OutEv.print "  Multiple audio tracks found:"
    :: (tracks.enum.map fun p => OutEv.print (trackLine p.1 p.2))
    ++ [OutEv.print "    a) all tracks"]

/-- The interactive selection loop of `PickAudioTracks` (models.go lines
270-301).  `ml` is the running `menuLines` counter; the stdin script is a
finite list of lines, and an exhausted script (the loop would keep
re-prompting forever in Go) is reported as result `none`.  Each iteration
prints the prompt, trims the line, accepts a case-insensitive "a"/"all", or
a 1-based ordinal in range, and otherwise prints the explicit invalid-choice
message and retries. -/
def selectLoop (tracks : List AudioTrack) : Nat → List String → List OutEv × Option (List Int)
  | _, [] => ([OutEv.print (promptLine tracks.length)], none)
  | ml, input :: rest =>
    let line := trimSpace input
    if lowerStr line = "a" ∨ lowerStr line = "all" then
      ([OutEv.print (promptLine tracks.length), OutEv.clear (ml + 1),
        OutEv.print "  Using all audio tracks"],
       some (tracks.map AudioTrack.StreamIndex))
    else
      match atoi line with
      | some n =>
        if 1 ≤ n ∧ n ≤ (tracks.length : Int) then
          let t := tracks.getD (n - 1).toNat default
          ([OutEv.print (promptLine tracks.length), OutEv.clear (ml + 1),
            OutEv.print (confirmLine t)],
           some [t.StreamIndex])
        else
          let r := selectLoop tracks (ml + 2) rest
          (OutEv.print (promptLine tracks.length) :: OutEv.print (invalidLine tracks.length) :: r.1, r.2)
      | none =>
        let r := selectLoop tracks (ml + 2) rest
        (OutEv.print (promptLine tracks.length) :: OutEv.print (invalidLine tracks.length) :: r.1, r.2)

/-- The full observable result of one `PickAudioTracks` call: every terminal
event in order, the returned stream indices (`none` both for the error
return and for a never-returning interactive loop), the returned error, and
the contents of the `tracks` slice as the call leaves them (the Go function
only ever reads the slice, so every exit passes it through unchanged). -/
structure PickResult where
  output : List OutEv
  indices : Option (List Int)
  error : Option String
  tracksAfter : List AudioTrack
deriving DecidableEq

/-- Embedding of `PickAudioTracks(tracks, manual)` of models.go, with stdin
modelled as a finite script of input lines. -/
def PickAudioTracks (tracks : List AudioTrack) (manual : Int) (stdin : List String) : PickResult :=
  if 0 ≤ manual then
    ⟨[OutEv.print s!"  Using audio track {manual} (manual)"], some [manual], none, tracks⟩
  else if tracks.length = 0 then
    ⟨[], none, some "no audio tracks found", tracks⟩
  else if tracks.length = 1 then
    let t := tracks.getD 0 default
    ⟨[OutEv.print (confirmLine t)], some [t.StreamIndex], none, tracks⟩
  else
    let menu := menuOut tracks
    let r := selectLoop tracks menu.length stdin
    ⟨menu ++ r.1, r.2, none, tracks⟩

example : (PickAudioTracks [] 0 []).indices = some [0] := rfl

example : (PickAudioTracks [⟨1, "eng", "aac", 2, 48000⟩, ⟨3, "", "ac3", 6, 48000⟩] (-1) ["A"]).indices
    = some [1, 3] := by decide

example : (PickAudioTracks [⟨1, "eng", "aac", 2, 48000⟩, ⟨3, "", "ac3", 6, 48000⟩] (-1) ["x", "2"]).indices
    = some [3] := by decide

/-!  ## Track prober -/

/-- Generic outcome of a decoding-library call: success, or one of the two
sentinel conditions the code inspects (`astiav.ErrEof`, `astiav.ErrEagain`),
or any other error. -/
inductive FFErr where
  | eof
  | eagain
  | other
deriving DecidableEq

/-- One stream of an opened container as `ProbeAudioTracks` observes it.
FFmpeg guarantees `s.Index()` equals the stream's position in `fc.Streams()`,
so the native index is not stored here: it is the position in
`ProbeWorld.streams`.  `language` is the raw "language" metadata entry, or
`none` when the stream has no metadata or no such entry. -/
structure ProbeStream where
  isAudio : Bool
  language : Option String
  codecName : String
  channels : Int
  sampleRate : Int
deriving DecidableEq

/-- Scripted outcomes of the library calls `ProbeAudioTracks` makes. -/
structure ProbeWorld where
  allocFC : Bool
  openInput : Option FFErr
  findStreamInfo : Option FFErr
  streams : List ProbeStream
deriving DecidableEq

/-- The error sites of `ProbeAudioTracks`. -/
inductive ProbeErr where
  | allocFormatContext
  | opening
  | findingStreamInfo
deriving DecidableEq

/-- The stream loop of `ProbeAudioTracks` (audio.go lines 36-57): skip
non-audio streams, emit one `AudioTrack` per audio stream carrying the
container-native index `i` (= position in the stream list). -/
def probeTracks : Int → List ProbeStream → List AudioTrack
  | _, [] => []
  | i, s :: rest =>
    if s.isAudio then
      { StreamIndex := i, Language := s.language.getD "",
        Codec := s.codecName, Channels := s.channels, SampleRate := s.sampleRate }
        :: probeTracks (i + 1) rest
    else probeTracks (i + 1) rest

/-- Embedding of `ProbeAudioTracks(path)` of audio.go: open the container,
resolve stream info, then collect the audio streams. -/
def ProbeAudioTracks (w : ProbeWorld) : Except ProbeErr (List AudioTrack) :=
  if w.allocFC = false then Except.error ProbeErr.allocFormatContext
  else
    match w.openInput with
    | some _ => Except.error ProbeErr.opening
    | none =>
      match w.findStreamInfo with
      | some _ => Except.error ProbeErr.findingStreamInfo
      | none => Except.ok (probeTracks 0 w.streams)

example :
    ProbeAudioTracks ⟨true, none, none,
      [⟨true, some "eng", "aac", 2, 48000⟩, ⟨false, none, "h264", 0, 0⟩,
       ⟨true, none, "ac3", 6, 48000⟩]⟩
      = Except.ok [⟨0, "eng", "aac", 2, 48000⟩, ⟨2, "", "ac3", 6, 48000⟩] := rfl

/-!  ## Audio extractor

`ExtractAudio` (audio.go lines 64-252) is embedded as a function of a
scripted environment.  Besides the returned `(samples, err)` pair it yields
the full trace of observable resource and pipeline events, with Go's
`defer` statements modelled exactly: each acquired resource registers its
release, and every return runs the registered releases in LIFO order. -/

/-- Observable events of one `ExtractAudio` call.  Acquisitions appear in
the order the Go code performs them; the `free`/`close` events are the
corresponding deferred releases.  The remaining events mark the pipeline
calls of the main read loop, the decoder flush phase, and the resampler
flush phase. -/
inductive Ev where
  | allocContainer | allocDecoder | allocResampler
  | allocSrcFrame | allocDstFrame | allocPacket
  | readPacket | sendPacket | recvFrame | convertFrame
  | sendFlush | recvFlushFrame | convertFlushFrame
  | resamplerFlush
  | freePacket | freeDstFrame | freeSrcFrame
  | freeResampler | freeDecoder | closeContainer
deriving DecidableEq

/-- The release registered by `defer` for each acquisition (identity on
non-acquisition events, which never enter an acquisition list). -/
def relOf : Ev → Ev
  | Ev.allocContainer => Ev.closeContainer
  | Ev.allocDecoder => Ev.freeDecoder
  | Ev.allocResampler => Ev.freeResampler
  | Ev.allocSrcFrame => Ev.freeSrcFrame
  | Ev.allocDstFrame => Ev.freeDstFrame
  | Ev.allocPacket => Ev.freePacket
  | e => e

/-- Phase rank of an event: 0 = acquisition, 1 = main read loop,
2 = decoder flush, 3 = resampler flush, 4 = release. -/
def phase : Ev → Nat
  | Ev.allocContainer | Ev.allocDecoder | Ev.allocResampler
  | Ev.allocSrcFrame | Ev.allocDstFrame | Ev.allocPacket => 0
  | Ev.readPacket | Ev.sendPacket | Ev.recvFrame | Ev.convertFrame => 1
  | Ev.sendFlush | Ev.recvFlushFrame | Ev.convertFlushFrame => 2
  | Ev.resamplerFlush => 3
  | Ev.freePacket | Ev.freeDstFrame | Ev.freeSrcFrame
  | Ev.freeResampler | Ev.freeDecoder | Ev.closeContainer => 4

/-- Is the event a resource acquisition? -/
def isAlloc (e : Ev) : Bool := phase e = 0

/-- Is the event a resource release? -/
def isFree (e : Ev) : Bool := phase e = 4

/-- The error sites of `ExtractAudio`, one per distinct `fmt.Errorf`. -/
inductive ExtractErr where
  | allocFormatContext | opening | findingStreamInfo
  | streamNotFound | notAudio | decoderNotFound
  | allocCodecContext | copyingCodecParams | openingCodec
  | allocSwrContext | allocSrcFrame | allocDstFrame | allocPacket
  | readingFrame | sendingPacket | receivingFrame | convertingFrame
  | flushingDecoder | receivingFrameFlush | convertingFrameFlush
  | flushingResampler | extractingFlushed
deriving DecidableEq

/-- Outcome of one `resampleAndCollect`-style conversion
(`swrCtx.ConvertFrame` followed by `extractFloat32Samples`): the convert
call itself fails, or it succeeds and yields the given samples (`out []`
is the legitimate `NbSamples() == 0` case), or the sample copy-out fails.
Sample values are opaque tokens, modelled as `Int`. -/
inductive RsOutcome where
  | convErr (e : FFErr)
  | out (samples : List Int)
  | extractErr (e : FFErr)
deriving DecidableEq

/-- Scripted result of one `cc.ReceiveFrame` call: a decoded frame together
with the outcome of its resample step, or an error. -/
inductive RecvR where
  | frame (rs : RsOutcome)
  | err (e : FFErr)
deriving DecidableEq

/-- Scripted behaviour attached to one successfully read packet: its stream
index, the `cc.SendPacket` outcome, and the subsequent `cc.ReceiveFrame`
results (an exhausted list behaves like `EAGAIN`). -/
structure PacketR where
  streamIndex : Int
  sendErr : Option FFErr
  recvs : List RecvR
deriving DecidableEq

/-- Scripted result of one `fc.ReadFrame` call. -/
inductive ReadR where
  | pkt (p : PacketR)
  | err (e : FFErr)
deriving DecidableEq

/-- Scripted outcomes of the two terminal flush phases: the
`cc.SendPacket(nil)` result, the flush-drain `ReceiveFrame` results, and the
final `swrCtx.ConvertFrame(nil, dstFrame)` outcome. -/
structure FlushScript where
  sendFlushErr : Option FFErr
  recvs : List RecvR
  swrFlush : RsOutcome
deriving DecidableEq

/-- Scripted outcomes of every library call `ExtractAudio` makes.  Stream
records carry only what the function inspects: the native index, the media
type, and whether `astiav.FindDecoder` finds a decoder for the codec. -/
structure XStream where
  index : Int
  isAudio : Bool
  hasDecoder : Bool
deriving DecidableEq

structure World where
  allocFC : Bool
  openInput : Option FFErr
  findStreamInfo : Option FFErr
  streams : List XStream
  allocCC : Bool
  toCodecCtx : Option FFErr
  openCodec : Option FFErr
  allocSwr : Bool
  allocSrc : Bool
  allocDst : Bool
  allocPkt : Bool
  reads : List ReadR
  flush : FlushScript
deriving DecidableEq

/-- Event trace, collected samples and error of a pipeline stage (and of the
whole call). -/
structure StepRes where
  trace : List Ev
  samples : List Int
  err : Option ExtractErr
deriving DecidableEq

/-- The inner `cc.ReceiveFrame` loop of the main read loop (audio.go lines
197-214): drain decoded frames, resampling each; `EAGAIN`/`EOF` end the
drain, any other receive error or any resample failure aborts.  An
exhausted script behaves like `EAGAIN`. -/
def recvLoop : List RecvR → List Int → StepRes
  | [], samples => ⟨[], samples, none⟩
  | RecvR.err e :: _, samples =>
    if e = FFErr.eagain ∨ e = FFErr.eof then ⟨[Ev.recvFrame], samples, none⟩
    else ⟨[Ev.recvFrame], samples, some ExtractErr.receivingFrame⟩
  | RecvR.frame rs :: rest, samples =>
    match rs with
    | RsOutcome.convErr _ => ⟨[Ev.recvFrame, Ev.convertFrame], samples, some ExtractErr.convertingFrame⟩
    | RsOutcome.extractErr _ => ⟨[Ev.recvFrame, Ev.convertFrame], samples, some ExtractErr.convertingFrame⟩
    | RsOutcome.out xs =>
      ⟨Ev.recvFrame :: Ev.convertFrame :: (recvLoop rest (samples ++ xs)).trace,
       (recvLoop rest (samples ++ xs)).samples, (recvLoop rest (samples ++ xs)).err⟩

/-- The main read loop of `ExtractAudio` (audio.go lines 175-215): read a
packet (`EOF` ends the loop; an exhausted script behaves like `EOF`), skip
packets of other streams, send matching packets to the decoder and drain it. -/
def readLoop (si : Int) : List ReadR → List Int → StepRes
  | [], samples => ⟨[], samples, none⟩
  | ReadR.err e :: _, samples =>
    if e = FFErr.eof then ⟨[Ev.readPacket], samples, none⟩
    else ⟨[Ev.readPacket], samples, some ExtractErr.readingFrame⟩
  | ReadR.pkt p :: rest, samples =>
    if p.streamIndex == si then
      match p.sendErr with
      | some _ => ⟨[Ev.readPacket, Ev.sendPacket], samples, some ExtractErr.sendingPacket⟩
      | none =>
        match (recvLoop p.recvs samples).err with
        | some e =>
          ⟨Ev.readPacket :: Ev.sendPacket :: (recvLoop p.recvs samples).trace,
           (recvLoop p.recvs samples).samples, some e⟩
        | none =>
          ⟨Ev.readPacket :: Ev.sendPacket :: (recvLoop p.recvs samples).trace
             ++ (readLoop si rest (recvLoop p.recvs samples).samples).trace,
           (readLoop si rest (recvLoop p.recvs samples).samples).samples,
           (readLoop si rest (recvLoop p.recvs samples).samples).err⟩
    else
      ⟨Ev.readPacket :: (readLoop si rest samples).trace,
       (readLoop si rest samples).samples, (readLoop si rest samples).err⟩

/-- The decoder flush drain (audio.go lines 221-235): same shape as the
inner receive loop but with the flush-specific error sites. -/
def flushRecvLoop : List RecvR → List Int → StepRes
  | [], samples => ⟨[], samples, none⟩
  | RecvR.err e :: _, samples =>
    if e = FFErr.eagain ∨ e = FFErr.eof then ⟨[Ev.recvFlushFrame], samples, none⟩
    else ⟨[Ev.recvFlushFrame], samples, some ExtractErr.receivingFrameFlush⟩
  | RecvR.frame rs :: rest, samples =>
    match rs with
    | RsOutcome.convErr _ => ⟨[Ev.recvFlushFrame, Ev.convertFlushFrame], samples, some ExtractErr.convertingFrameFlush⟩
    | RsOutcome.extractErr _ => ⟨[Ev.recvFlushFrame, Ev.convertFlushFrame], samples, some ExtractErr.convertingFrameFlush⟩
    | RsOutcome.out xs =>
      ⟨Ev.recvFlushFrame :: Ev.convertFlushFrame :: (flushRecvLoop rest (samples ++ xs)).trace,
       (flushRecvLoop rest (samples ++ xs)).samples, (flushRecvLoop rest (samples ++ xs)).err⟩

/-- The resampler flush (audio.go lines 238-249): `ConvertFrame(nil, dst)`;
an `EOF` is tolerated, any other convert error aborts, a successful convert
appends the yielded samples (none when `NbSamples() == 0`), and a failing
copy-out aborts. -/
def swrFlushStep (o : RsOutcome) (samples : List Int) : StepRes :=
  match o with
  | RsOutcome.convErr e =>
    if e = FFErr.eof then ⟨[Ev.resamplerFlush], samples, none⟩
    else ⟨[Ev.resamplerFlush], samples, some ExtractErr.flushingResampler⟩
  | RsOutcome.out xs => ⟨[Ev.resamplerFlush], samples ++ xs, none⟩
  | RsOutcome.extractErr _ => ⟨[Ev.resamplerFlush], samples, some ExtractErr.extractingFlushed⟩

/-- The two terminal flush phases in order (audio.go lines 217-249):
`cc.SendPacket(nil)` (an `EOF` reply is tolerated), the decoder flush drain,
then the resampler flush. -/
def flushPhase (fs : FlushScript) (samples : List Int) : StepRes :=
  if fs.sendFlushErr = none ∨ fs.sendFlushErr = some FFErr.eof then
    match (flushRecvLoop fs.recvs samples).err with
    | some e =>
      ⟨Ev.sendFlush :: (flushRecvLoop fs.recvs samples).trace,
       (flushRecvLoop fs.recvs samples).samples, some e⟩
    | none =>
      ⟨Ev.sendFlush :: (flushRecvLoop fs.recvs samples).trace
         ++ (swrFlushStep fs.swrFlush (flushRecvLoop fs.recvs samples).samples).trace,
       (swrFlushStep fs.swrFlush (flushRecvLoop fs.recvs samples).samples).samples,
       (swrFlushStep fs.swrFlush (flushRecvLoop fs.recvs samples).samples).err⟩
  else ⟨[Ev.sendFlush], samples, some ExtractErr.flushingDecoder⟩

/-- The acquisition order of the six resources of `ExtractAudio`. -/
def fullAcq : List Ev :=
  [Ev.allocContainer, Ev.allocDecoder, Ev.allocResampler,
   Ev.allocSrcFrame, Ev.allocDstFrame, Ev.allocPacket]

/-- The release order actually performed by the deferred cleanups (LIFO of
acquisition). -/
def fullRel : List Ev :=
  [Ev.freePacket, Ev.freeDstFrame, Ev.freeSrcFrame,
   Ev.freeResampler, Ev.freeDecoder, Ev.closeContainer]

/-- A return from `ExtractAudio` with the given resources currently
acquired: Go runs the registered `defer`s in LIFO order, so the trace ends
with the reversed releases of `acq`. -/
def finish (acq body : List Ev) (samples : List Int) (err : Option ExtractErr) : StepRes :=
  ⟨acq ++ body ++ (acq.map relOf).reverse, samples, err⟩

/-- Embedding of `ExtractAudio(path, streamIndex)` of audio.go.  Every early
`return nil, err` is a `finish` with the resources acquired so far; the
terminal flush phases run only after the main loop ends at end-of-stream. -/
def ExtractAudio (w : World) (si : Int) : StepRes :=
  if w.allocFC = false then finish [] [] [] (some ExtractErr.allocFormatContext)
  else
    match w.openInput with
    | some _ => finish [Ev.allocContainer] [] [] (some ExtractErr.opening)
    | none =>
    match w.findStreamInfo with
    | some _ => finish [Ev.allocContainer] [] [] (some ExtractErr.findingStreamInfo)
    | none =>
    match w.streams.find? fun s => s.index == si with
    | none => finish [Ev.allocContainer] [] [] (some ExtractErr.streamNotFound)
    | some st =>
    if st.isAudio = false then finish [Ev.allocContainer] [] [] (some ExtractErr.notAudio)
    else if st.hasDecoder = false then finish [Ev.allocContainer] [] [] (some ExtractErr.decoderNotFound)
    else if w.allocCC = false then finish [Ev.allocContainer] [] [] (some ExtractErr.allocCodecContext)
    else
      match w.toCodecCtx with
      | some _ => finish (fullAcq.take 2) [] [] (some ExtractErr.copyingCodecParams)
      | none =>
      match w.openCodec with
      | some _ => finish (fullAcq.take 2) [] [] (some ExtractErr.openingCodec)
      | none =>
      if w.allocSwr = false then finish (fullAcq.take 2) [] [] (some ExtractErr.allocSwrContext)
      else if w.allocSrc = false then finish (fullAcq.take 3) [] [] (some ExtractErr.allocSrcFrame)
      else if w.allocDst = false then finish (fullAcq.take 4) [] [] (some ExtractErr.allocDstFrame)
      else if w.allocPkt = false then finish (fullAcq.take 5) [] [] (some ExtractErr.allocPacket)
      else
        match (readLoop si w.reads []).err with
        | some e => finish fullAcq (readLoop si w.reads []).trace [] (some e)
        | none =>
          match (flushPhase w.flush (readLoop si w.reads []).samples).err with
          | some e =>
            finish fullAcq
              ((readLoop si w.reads []).trace
                ++ (flushPhase w.flush (readLoop si w.reads []).samples).trace)
              [] (some e)
          | none =>
            finish fullAcq
              ((readLoop si w.reads []).trace
                ++ (flushPhase w.flush (readLoop si w.reads []).samples).trace)
              (flushPhase w.flush (readLoop si w.reads []).samples).samples none

/-- A fully successful scripted run used in several concrete checks: one
matching packet decoding to one frame of samples `[1]`, then end-of-stream;
the decoder flush drains nothing and the resampler flush yields `[2]`. -/
def wOk : World :=
  { allocFC := true, openInput := none, findStreamInfo := none,
    streams := [⟨0, true, true⟩],
    allocCC := true, toCodecCtx := none, openCodec := none,
    allocSwr := true, allocSrc := true, allocDst := true, allocPkt := true,
    reads := [ReadR.pkt ⟨0, none, [RecvR.frame (RsOutcome.out [1]), RecvR.err FFErr.eagain]⟩,
              ReadR.err FFErr.eof],
    flush := ⟨none, [RecvR.err FFErr.eof], RsOutcome.out [2]⟩ }

example : (ExtractAudio wOk 0).err = none := by decide
example : (ExtractAudio wOk 0).samples = [1, 2] := by decide
example : (ExtractAudio wOk 0).trace.filter isFree
    = [Ev.freePacket, Ev.freeDstFrame, Ev.freeSrcFrame,
       Ev.freeResampler, Ev.freeDecoder, Ev.closeContainer] := by decide

/-!  ## Claims about the track selector -/

/-- Claim C4: for every tracks list (including the empty list) and every
`manualOverride >= 0`, `PickAudioTracks` returns exactly `[manualOverride]`
and no error, verbatim, without checking it against the tracks list (the
conclusion holds for arbitrary `tracks` and stdin). -/
theorem C4_manual_override (tracks : List AudioTrack) (manual : Int) (stdin : List String)
    (h : 0 ≤ manual) :
    (PickAudioTracks tracks manual stdin).indices = some [manual]
    ∧ (PickAudioTracks tracks manual stdin).error = none := by
  simp [PickAudioTracks, h]

theorem C4_manual_override_witness :
    (0 : Int) ≤ 7
    ∧ (PickAudioTracks [] 7 ["nonsense"]).indices = some [7]
    ∧ (PickAudioTracks [] 7 ["nonsense"]).error = none :=
  ⟨by decide, (C4_manual_override [] 7 ["nonsense"] (by decide)).1,
   (C4_manual_override [] 7 ["nonsense"] (by decide)).2⟩

/-- Claim C5, counterexample: the claim quantifies over every call with an
empty tracks list, but a call with `manual = 0` and empty tracks returns
`[0]` with no error — the `manual >= 0` branch precedes the emptiness
check. -/
theorem C5_counterexample :
    (PickAudioTracks [] 0 []).indices = some [0]
    ∧ (PickAudioTracks [] 0 []).error = none :=
  ⟨rfl, rfl⟩

/-- Claim C5 as amended: with an empty tracks list and no manual override
(`manual < 0`), the call fails with the no-tracks-found error and returns no
stream indices. -/
theorem C5_empty_tracks (manual : Int) (stdin : List String) (h : manual < 0) :
    (PickAudioTracks [] manual stdin).error = some "no audio tracks found"
    ∧ (PickAudioTracks [] manual stdin).indices = none := by
  have h0 : ¬ (0 ≤ manual) := by omega
  simp [PickAudioTracks, h0]

theorem C5_empty_tracks_witness :
    (-1 : Int) < 0
    ∧ (PickAudioTracks [] (-1) []).error = some "no audio tracks found"
    ∧ (PickAudioTracks [] (-1) []).indices = none :=
  ⟨by decide, (C5_empty_tracks (-1) [] (by decide)).1, (C5_empty_tracks (-1) [] (by decide)).2⟩

/-- Claim C6: with multiple tracks whose stream indices are in ascending
container order (the shape `ProbeAudioTracks` produces, see
`C8_probe_native_indices`), a case-insensitive "a"/"all" answer returns
every track's `StreamIndex`, and the returned list is ascending. -/
theorem C6_all_ascending (tracks : List AudioTrack) (input : String) (rest : List String)
    (h2 : 2 ≤ tracks.length)
    (hsorted : tracks.Pairwise fun a b => a.StreamIndex < b.StreamIndex)
    (ha : lowerStr (trimSpace input) = "a" ∨ lowerStr (trimSpace input) = "all") :
    (PickAudioTracks tracks (-1) (input :: rest)).indices
        = some (tracks.map AudioTrack.StreamIndex)
    ∧ (PickAudioTracks tracks (-1) (input :: rest)).error = none
    ∧ (tracks.map AudioTrack.StreamIndex).Pairwise (· < ·)
    ∧ ∀ t ∈ tracks, t.StreamIndex ∈ tracks.map AudioTrack.StreamIndex := by
  have hm : ¬ (0 ≤ (-1 : Int)) := by decide
  have hne0 : ¬ (tracks.length = 0) := by omega
  have hne1 : ¬ (tracks.length = 1) := by omega
  refine ⟨?_, ?_, List.pairwise_map.mpr hsorted, fun t ht => List.mem_map_of_mem _ ht⟩
  · rcases ha with h | h <;> simp [PickAudioTracks, selectLoop, hm, hne0, hne1, h]
  · simp [PickAudioTracks, hm, hne0, hne1]

theorem C6_all_ascending_witness :
    (PickAudioTracks [⟨1, "eng", "aac", 2, 48000⟩, ⟨3, "", "ac3", 6, 48000⟩] (-1) ["ALL"]).indices
      = some [1, 3]
    ∧ ([1, 3] : List Int).Pairwise (· < ·) :=
  ⟨(C6_all_ascending [⟨1, "eng", "aac", 2, 48000⟩, ⟨3, "", "ac3", 6, 48000⟩] "ALL" []
      (by decide) (by decide) (Or.inr (by decide))).1,
   (C6_all_ascending [⟨1, "eng", "aac", 2, 48000⟩, ⟨3, "", "ac3", 6, 48000⟩] "ALL" []
      (by decide) (by decide) (Or.inr (by decide))).2.2.1⟩

/-- Claim C9: the "und" substitution for an empty `Language` happens only in
the displayed output; the stored track metadata is passed through unchanged
by every exit path of `PickAudioTracks`. -/
theorem C9_no_writeback :
    (∀ (tracks : List AudioTrack) (manual : Int) (stdin : List String),
      (PickAudioTracks tracks manual stdin).tracksAfter = tracks)
    ∧ (∀ (t : AudioTrack) (stdin : List String), t.Language = "" →
        (PickAudioTracks [t] (-1) stdin).output = [OutEv.print (confirmLine t)]
        ∧ displayLang t = "und") := by
  constructor
  · intro tracks manual stdin
    unfold PickAudioTracks
    split_ifs <;> rfl
  · intro t stdin h
    have hm : ¬ (0 ≤ (-1 : Int)) := by decide
    exact ⟨by simp [PickAudioTracks, hm], by simp [displayLang, h]⟩

theorem C9_no_writeback_witness :
    (PickAudioTracks [⟨3, "", "aac", 2, 48000⟩] (-1) []).tracksAfter
        = [⟨3, "", "aac", 2, 48000⟩]
    ∧ (PickAudioTracks [⟨3, "", "aac", 2, 48000⟩] (-1) []).output
        = [OutEv.print (confirmLine ⟨3, "", "aac", 2, 48000⟩)]
    ∧ displayLang ⟨3, "", "aac", 2, 48000⟩ = "und" :=
  ⟨C9_no_writeback.1 [⟨3, "", "aac", 2, 48000⟩] (-1) [],
   (C9_no_writeback.2 ⟨3, "", "aac", 2, 48000⟩ [] rfl).1,
   (C9_no_writeback.2 ⟨3, "", "aac", 2, 48000⟩ [] rfl).2⟩

/-- A stdin line that the interactive loop rejects: not "a"/"all" in any
case, and not a 1-based ordinal within the menu range. -/
def isInvalidChoice (tracks : List AudioTrack) (input : String) : Prop :=
  lowerStr (trimSpace input) ≠ "a" ∧ lowerStr (trimSpace input) ≠ "all" ∧
    ∀ n ∈ atoi (trimSpace input), ¬(1 ≤ n ∧ n ≤ (tracks.length : Int))

instance (tracks : List AudioTrack) (input : String) :
    Decidable (isInvalidChoice tracks input) := by
  unfold isInvalidChoice; infer_instance

/-- One rejected iteration of the selection loop: prompt, explicit
invalid-choice message, then retry with the counter advanced by two. -/
lemma selectLoop_invalid (tracks : List AudioTrack) (ml : Nat) (b : String)
    (ins : List String) (h : isInvalidChoice tracks b) :
    selectLoop tracks ml (b :: ins)
      = (OutEv.print (promptLine tracks.length) :: OutEv.print (invalidLine tracks.length)
          :: (selectLoop tracks (ml + 2) ins).1,
         (selectLoop tracks (ml + 2) ins).2) := by
  obtain ⟨hA, hAll, hR⟩ := h
  rw [selectLoop, if_neg (by tauto)]
  cases hn : atoi (trimSpace b) with
  | none => simp
  | some n =>
    have hnr : ¬ (1 ≤ n ∧ n ≤ (tracks.length : Int)) := hR n (by simp [hn])
    simp [hnr]

/-- An accepted ordinal: the loop returns the 1-based `k`-th listed track's
stream index. -/
lemma selectLoop_accept (tracks : List AudioTrack) (ml : Nat) (good : String)
    (rest : List String) (k : Int)
    (hA : lowerStr (trimSpace good) ≠ "a") (hAll : lowerStr (trimSpace good) ≠ "all")
    (hk : atoi (trimSpace good) = some k) (h1 : 1 ≤ k) (h2 : k ≤ (tracks.length : Int)) :
    (selectLoop tracks ml (good :: rest)).2
      = some [(tracks.getD (k - 1).toNat default).StreamIndex] := by
  rw [selectLoop, if_neg (by tauto)]
  simp [hk, if_pos (And.intro h1 h2)]

/-- Any number of rejected lines before an accepted ordinal still ends in
the accepted ordinal's result. -/
lemma selectLoop_skip_invalid (tracks : List AudioTrack) (good : String)
    (rest : List String) (k : Int)
    (hA : lowerStr (trimSpace good) ≠ "a") (hAll : lowerStr (trimSpace good) ≠ "all")
    (hk : atoi (trimSpace good) = some k) (h1 : 1 ≤ k) (h2 : k ≤ (tracks.length : Int)) :
    ∀ (bads : List String), (∀ b ∈ bads, isInvalidChoice tracks b) → ∀ ml,
      (selectLoop tracks ml (bads ++ good :: rest)).2
        = some [(tracks.getD (k - 1).toNat default).StreamIndex] := by
  intro bads
  induction bads with
  | nil => intro _ ml; exact selectLoop_accept tracks ml good rest k hA hAll hk h1 h2
  | cons b bs ih =>
    intro hb ml
    rw [List.cons_append, selectLoop_invalid tracks ml b (bs ++ good :: rest)
      (hb b (by simp))]
    exact ih (fun x hx => hb x (by simp [hx])) (ml + 2)

/-- Claim C7: in interactive selection over multiple tracks, any sequence of
invalid lines followed by a valid 1-based ordinal `k` ends with
`[tracks[k-1].StreamIndex]` and no error, and when at least one invalid line
occurred the explicit invalid-choice message was printed. -/
theorem C7_invalid_then_ordinal (tracks : List AudioTrack) (bads : List String)
    (good : String) (rest : List String) (k : Int)
    (hlen : 2 ≤ tracks.length)
    (hb : ∀ b ∈ bads, isInvalidChoice tracks b)
    (hA : lowerStr (trimSpace good) ≠ "a") (hAll : lowerStr (trimSpace good) ≠ "all")
    (hk : atoi (trimSpace good) = some k) (hk1 : 1 ≤ k) (hk2 : k ≤ (tracks.length : Int)) :
    (PickAudioTracks tracks (-1) (bads ++ good :: rest)).indices
        = some [(tracks.getD (k - 1).toNat default).StreamIndex]
    ∧ (PickAudioTracks tracks (-1) (bads ++ good :: rest)).error = none
    ∧ (bads ≠ [] →
        OutEv.print (invalidLine tracks.length)
          ∈ (PickAudioTracks tracks (-1) (bads ++ good :: rest)).output) := by
  have hm : ¬ (0 ≤ (-1 : Int)) := by decide
  have hne0 : ¬ (tracks.length = 0) := by omega
  have hne1 : ¬ (tracks.length = 1) := by omega
  refine ⟨?_, ?_, ?_⟩
  · simp only [PickAudioTracks, if_neg hm, if_neg hne0, if_neg hne1]
    exact selectLoop_skip_invalid tracks good rest k hA hAll hk hk1 hk2 bads hb _
  · simp [PickAudioTracks, hm, hne0, hne1]
  · intro hbe
    simp only [PickAudioTracks, if_neg hm, if_neg hne0, if_neg hne1]
    rcases bads with _ | ⟨b, bs⟩
    · exact absurd rfl hbe
    · rw [List.cons_append, selectLoop_invalid tracks _ b (bs ++ good :: rest)
        (hb b (by simp))]
      simp

theorem C7_invalid_then_ordinal_witness :
    isInvalidChoice [⟨1, "eng", "aac", 2, 48000⟩, ⟨3, "", "ac3", 6, 48000⟩] "x"
    ∧ (PickAudioTracks [⟨1, "eng", "aac", 2, 48000⟩, ⟨3, "", "ac3", 6, 48000⟩]
        (-1) ["x", "2"]).indices = some [3]
    ∧ OutEv.print (invalidLine 2)
        ∈ (PickAudioTracks [⟨1, "eng", "aac", 2, 48000⟩, ⟨3, "", "ac3", 6, 48000⟩]
            (-1) ["x", "2"]).output :=
  ⟨by decide,
   (C7_invalid_then_ordinal [⟨1, "eng", "aac", 2, 48000⟩, ⟨3, "", "ac3", 6, 48000⟩]
      ["x"] "2" [] 2 (by decide) (by decide) (by decide) (by decide) (by decide)
      (by decide) (by decide)).1,
   (C7_invalid_then_ordinal [⟨1, "eng", "aac", 2, 48000⟩, ⟨3, "", "ac3", 6, 48000⟩]
      ["x"] "2" [] 2 (by decide) (by decide) (by decide) (by decide) (by decide)
      (by decide) (by decide)).2.2 (by decide)⟩

/-!  ## Claims about the track prober -/

/-- Every track emitted with running counter `i` has stream index at least
`i`. -/
lemma probeTracks_ge (ss : List ProbeStream) : ∀ (i : Int) (t : AudioTrack),
    t ∈ probeTracks i ss → i ≤ t.StreamIndex := by
  induction ss with
  | nil => intro i t h; simp [probeTracks] at h
  | cons s rest ih =>
    intro i t h
    cases hs : s.isAudio with
    | true =>
      rw [probeTracks, if_pos hs] at h
      rcases List.mem_cons.mp h with h | h
      · subst h; simp
      · have := ih (i + 1) t h; omega
    | false =>
      rw [probeTracks, if_neg (by simp [hs])] at h
      have := ih (i + 1) t h; omega

/-- The emitted stream indices are strictly ascending. -/
lemma probeTracks_sorted (ss : List ProbeStream) : ∀ (i : Int),
    ((probeTracks i ss).map AudioTrack.StreamIndex).Pairwise (· < ·) := by
  induction ss with
  | nil => intro i; simp [probeTracks]
  | cons s rest ih =>
    intro i
    cases hs : s.isAudio with
    | true =>
      rw [probeTracks, if_pos hs, List.map_cons]
      refine List.pairwise_cons.mpr ⟨fun m hm => ?_, ih (i + 1)⟩
      obtain ⟨a, ha, rfl⟩ := List.mem_map.mp hm
      have := probeTracks_ge rest (i + 1) a ha
      simp only []
      omega
    | false => rw [probeTracks, if_neg (by simp [hs])]; exact ih (i + 1)

/-- Characterization of the emitted stream indices: exactly the positions of
the audio-typed streams, offset by the running counter. -/
lemma probeTracks_mem (ss : List ProbeStream) : ∀ (i n : Int),
    n ∈ (probeTracks i ss).map AudioTrack.StreamIndex
      ↔ ∃ (j : Nat) (s : ProbeStream),
          ss.get? j = some s ∧ s.isAudio = true ∧ n = i + (j : Int) := by
  induction ss with
  | nil => intro i n; simp [probeTracks]
  | cons s rest ih =>
    intro i n
    cases hs : s.isAudio with
    | true =>
      rw [probeTracks, if_pos hs]
      simp only [List.map_cons, List.mem_cons]
      constructor
      · rintro (h | h)
        · exact ⟨0, s, rfl, hs, by simpa using h⟩
        · obtain ⟨j, s', hj, ha, hn⟩ := (ih (i + 1) n).mp h
          exact ⟨j + 1, s', by simpa using hj, ha, by push_cast at hn ⊢; omega⟩
      · rintro ⟨j, s', hj, ha, hn⟩
        cases j with
        | zero =>
          left
          have : s = s' := by simpa using hj
          simpa using hn
        | succ j =>
          right
          exact (ih (i + 1) n).mpr ⟨j, s', by simpa using hj, ha, by push_cast at hn ⊢; omega⟩
    | false =>
      rw [probeTracks, if_neg (by simp [hs]), ih (i + 1) n]
      constructor
      · rintro ⟨j, s', hj, ha, hn⟩
        exact ⟨j + 1, s', by simpa using hj, ha, by push_cast at hn ⊢; omega⟩
      · rintro ⟨j, s', hj, ha, hn⟩
        cases j with
        | zero =>
          have : s = s' := by simpa using hj
          rw [← this, hs] at ha; cases ha
        | succ j =>
          exact ⟨j, s', by simpa using hj, ha, by push_cast at hn ⊢; omega⟩

/-- One emitted track per audio-typed stream. -/
lemma probeTracks_length (ss : List ProbeStream) : ∀ (i : Int),
    (probeTracks i ss).length = ss.countP (fun s => s.isAudio) := by
  induction ss with
  | nil => intro i; simp [probeTracks]
  | cons s rest ih =>
    intro i
    cases hs : s.isAudio with
    | true => rw [probeTracks, if_pos hs]; simp [List.countP_cons, hs, ih (i + 1)]
    | false => rw [probeTracks, if_neg (by simp [hs])]; simp [List.countP_cons, hs, ih (i + 1)]

/-- Claim C8: when the container opens and its stream info resolves,
`ProbeAudioTracks` succeeds and returns one `AudioTrack` per audio-typed
stream only; the returned `StreamIndex` values are exactly the container's
native audio-stream indices (positions in the container's stream list),
each exactly once, in ascending order; zero audio streams yield the empty
list with no error. -/
theorem C8_probe_native_indices (w : ProbeWorld)
    (h1 : w.allocFC = true) (h2 : w.openInput = none) (h3 : w.findStreamInfo = none) :
    ∃ ts, ProbeAudioTracks w = Except.ok ts
      ∧ (ts.map AudioTrack.StreamIndex).Pairwise (· < ·)
      ∧ (∀ n : Int, n ∈ ts.map AudioTrack.StreamIndex
          ↔ ∃ (j : Nat) (s : ProbeStream),
              w.streams.get? j = some s ∧ s.isAudio = true ∧ n = (j : Int))
      ∧ ts.length = w.streams.countP (fun s => s.isAudio)
      ∧ ((∀ s ∈ w.streams, s.isAudio = false) → ts = []) := by
  refine ⟨probeTracks 0 w.streams, ?_, probeTracks_sorted w.streams 0, ?_,
    probeTracks_length w.streams 0, ?_⟩
  · simp [ProbeAudioTracks, h1, h2, h3]
  · intro n; simpa using probeTracks_mem w.streams 0 n
  · intro hall
    have hcnt : w.streams.countP (fun s => s.isAudio) = 0 := by
      rw [List.countP_eq_zero]
      intro a ha; simp [hall a ha]
    exact List.length_eq_zero.mp ((probeTracks_length w.streams 0).trans hcnt)

/-- A concrete three-stream container (audio, video, audio) for the C8
witness. -/
def wProbe : ProbeWorld :=
  ⟨true, none, none,
   [⟨true, some "eng", "aac", 2, 48000⟩, ⟨false, none, "h264", 0, 0⟩,
    ⟨true, none, "ac3", 6, 48000⟩]⟩

theorem C8_probe_native_indices_witness :
    wProbe.allocFC = true
    ∧ ∃ ts, ProbeAudioTracks wProbe = Except.ok ts
        ∧ (ts.map AudioTrack.StreamIndex).Pairwise (· < ·)
        ∧ (∀ n : Int, n ∈ ts.map AudioTrack.StreamIndex
            ↔ ∃ (j : Nat) (s : ProbeStream),
                wProbe.streams.get? j = some s ∧ s.isAudio = true ∧ n = (j : Int))
        ∧ ts.length = wProbe.streams.countP (fun s => s.isAudio)
        ∧ ((∀ s ∈ wProbe.streams, s.isAudio = false) → ts = []) :=
  ⟨rfl, C8_probe_native_indices wProbe rfl rfl rfl⟩

/-!  ## Claims about the audio extractor -/

lemma alloc_not_free {e : Ev} (h : isAlloc e = true) : isFree e = false := by
  simp only [isAlloc, decide_eq_true_eq] at h
  simp [isFree, h]

lemma relOf_free {e : Ev} (h : isAlloc e = true) : isFree (relOf e) = true := by
  cases e <;> simp_all [isAlloc, isFree, relOf, phase]

lemma phase_relOf {e : Ev} (h : isAlloc e = true) : phase (relOf e) = 4 := by
  have := relOf_free (e := e) h
  simpa [isFree] using this

lemma relOf_not_alloc {e : Ev} (h : isAlloc e = true) : isAlloc (relOf e) = false := by
  have := phase_relOf (e := e) h
  simp [isAlloc, this]

lemma mid_not_free {e : Ev} (h1 : 1 ≤ phase e) (h2 : phase e ≤ 3) :
    isFree e = false ∧ isAlloc e = false := by
  constructor <;> [simp only [isFree]; simp only [isAlloc]] <;> simp <;> omega

lemma pairwise_phase_const : ∀ (l : List Ev) (c : Nat), (∀ x ∈ l, phase x = c) →
    l.Pairwise (fun a b => phase a ≤ phase b) := by
  intro l c
  induction l with
  | nil => intro _; exact List.Pairwise.nil
  | cons a l ih =>
    intro h
    refine List.pairwise_cons.mpr ⟨fun b hb => ?_, ih fun x hx => h x (by simp [hx])⟩
    rw [h a (by simp), h b (by simp [hb])]

/-- Every event of the inner receive loop belongs to the main-loop phase. -/
lemma recvLoop_phase (rs : List RecvR) : ∀ (s : List Int),
    ∀ x ∈ (recvLoop rs s).trace, phase x = 1 := by
  induction rs with
  | nil => intro s x h; simp [recvLoop] at h
  | cons r rest ih =>
    intro s x h
    cases r with
    | err e =>
      rw [recvLoop] at h
      split at h <;> simp at h <;> subst h <;> rfl
    | frame o =>
      cases o with
      | convErr e => simp [recvLoop] at h; rcases h with rfl | rfl <;> rfl
      | extractErr e => simp [recvLoop] at h; rcases h with rfl | rfl <;> rfl
      | out xs =>
        simp only [recvLoop, List.mem_cons] at h
        rcases h with rfl | rfl | h
        · rfl
        · rfl
        · exact ih _ x h

/-- Every event of the main read loop belongs to the main-loop phase. -/
lemma readLoop_phase (si : Int) (reads : List ReadR) : ∀ (s : List Int),
    ∀ x ∈ (readLoop si reads s).trace, phase x = 1 := by
  induction reads with
  | nil => intro s x h; simp [readLoop] at h
  | cons r rest ih =>
    intro s x h
    cases r with
    | err e =>
      rw [readLoop] at h
      split at h <;> simp at h <;> subst h <;> rfl
    | pkt p =>
      rw [readLoop] at h
      by_cases hsi : (p.streamIndex == si) = true
      · rw [if_pos hsi] at h
        cases hse : p.sendErr with
        | some e => rw [hse] at h; simp at h; rcases h with rfl | rfl <;> rfl
        | none =>
          rw [hse] at h
          cases hre : (recvLoop p.recvs s).err with
          | some e =>
            rw [hre] at h
            simp only [List.mem_cons] at h
            rcases h with rfl | rfl | h
            · rfl
            · rfl
            · exact recvLoop_phase p.recvs s x h
          | none =>
            rw [hre] at h
            simp only [List.mem_cons, List.cons_append, List.mem_append] at h
            rcases h with rfl | rfl | h | h
            · rfl
            · rfl
            · exact recvLoop_phase p.recvs s x h
            · exact ih _ x h
      · rw [if_neg hsi] at h
        simp only [List.mem_cons] at h
        rcases h with rfl | h
        · rfl
        · exact ih _ x h

/-- Every event of the decoder flush drain belongs to the decoder-flush
phase. -/
lemma flushRecvLoop_phase (rs : List RecvR) : ∀ (s : List Int),
    ∀ x ∈ (flushRecvLoop rs s).trace, phase x = 2 := by
  induction rs with
  | nil => intro s x h; simp [flushRecvLoop] at h
  | cons r rest ih =>
    intro s x h
    cases r with
    | err e =>
      rw [flushRecvLoop] at h
      split at h <;> simp at h <;> subst h <;> rfl
    | frame o =>
      cases o with
      | convErr e => simp [flushRecvLoop] at h; rcases h with rfl | rfl <;> rfl
      | extractErr e => simp [flushRecvLoop] at h; rcases h with rfl | rfl <;> rfl
      | out xs =>
        simp only [flushRecvLoop, List.mem_cons] at h
        rcases h with rfl | rfl | h
        · rfl
        · rfl
        · exact ih _ x h

lemma swrFlushStep_trace (o : RsOutcome) (s : List Int) :
    (swrFlushStep o s).trace = [Ev.resamplerFlush] := by
  cases o with
  | convErr e => rw [swrFlushStep]; split <;> rfl
  | out xs => rfl
  | extractErr e => rfl

/-- Flush-phase events rank between the main loop and the releases. -/
lemma flushPhase_bound (fs : FlushScript) (s : List Int) :
    ∀ x ∈ (flushPhase fs s).trace, 2 ≤ phase x ∧ phase x ≤ 3 := by
  intro x h
  rw [flushPhase] at h
  split at h
  · split at h
    · simp only [List.mem_cons] at h
      rcases h with rfl | h
      · decide
      · rw [flushRecvLoop_phase fs.recvs s x h]; omega
    · simp only [List.cons_append, swrFlushStep_trace, List.mem_cons, List.mem_append,
        List.mem_singleton] at h
      rcases h with rfl | h | rfl | h
      · decide
      · rw [flushRecvLoop_phase fs.recvs s x h]; omega
      · decide
      · exact absurd h (List.not_mem_nil x)
  · simp at h; subst h; decide

/-- The flush-phase trace is ordered: decoder flush strictly before the
resampler flush. -/
lemma flushPhase_sorted (fs : FlushScript) (s : List Int) :
    (flushPhase fs s).trace.Pairwise (fun a b => phase a ≤ phase b) := by
  rw [flushPhase]
  split
  · split
    · refine List.pairwise_cons.mpr
        ⟨fun b hb => ?_, pairwise_phase_const _ 2 (flushRecvLoop_phase fs.recvs s)⟩
      rw [flushRecvLoop_phase fs.recvs s b hb]; decide
    · rw [List.pairwise_append]
      refine ⟨?_, ?_, ?_⟩
      · refine List.pairwise_cons.mpr
          ⟨fun b hb => ?_, pairwise_phase_const _ 2 (flushRecvLoop_phase fs.recvs s)⟩
        rw [flushRecvLoop_phase fs.recvs s b hb]; decide
      · rw [swrFlushStep_trace]; simp
      · intro a ha b hb
        rw [swrFlushStep_trace] at hb
        simp at hb; subst hb
        rcases List.mem_cons.mp ha with rfl | ha
        · decide
        · rw [flushRecvLoop_phase fs.recvs s a ha]; decide
  · simp

lemma alloc_phase {e : Ev} (h : isAlloc e = true) : phase e = 0 := by
  simpa [isAlloc] using h

/-- Properties of any single return point: every acquired resource is
released exactly once, in LIFO order (so in a suffix of `fullRel`), and the
whole trace is ordered by phase. -/
lemma finish_props (acq body : List Ev) (s : List Int) (e : Option ExtractErr)
    (hacq : ∀ x ∈ acq, isAlloc x = true)
    (hsub : ((acq.map relOf).reverse).Sublist fullRel)
    (hb : ∀ x ∈ body, 1 ≤ phase x ∧ phase x ≤ 3)
    (hbs : body.Pairwise fun a b => phase a ≤ phase b) :
    (finish acq body s e).trace.filter isFree
        = (((finish acq body s e).trace.filter isAlloc).map relOf).reverse
    ∧ ((finish acq body s e).trace.filter isFree).Sublist fullRel
    ∧ (finish acq body s e).trace.Pairwise (fun a b => phase a ≤ phase b) := by
  have hAf : acq.filter isFree = [] :=
    List.filter_eq_nil_iff.mpr fun a ha => by rw [alloc_not_free (hacq a ha)]; simp
  have hAa : acq.filter isAlloc = acq :=
    List.filter_eq_self.mpr fun a ha => hacq a ha
  have hBf : body.filter isFree = [] :=
    List.filter_eq_nil_iff.mpr fun a ha => by
      rw [(mid_not_free (hb a ha).1 (hb a ha).2).1]; simp
  have hBa : body.filter isAlloc = [] :=
    List.filter_eq_nil_iff.mpr fun a ha => by
      rw [(mid_not_free (hb a ha).1 (hb a ha).2).2]; simp
  have hRf : ((acq.map relOf).reverse).filter isFree = (acq.map relOf).reverse :=
    List.filter_eq_self.mpr fun a ha => by
      rw [List.mem_reverse] at ha
      obtain ⟨y, hy, rfl⟩ := List.mem_map.mp ha
      exact relOf_free (hacq y hy)
  have hRa : ((acq.map relOf).reverse).filter isAlloc = [] :=
    List.filter_eq_nil_iff.mpr fun a ha => by
      rw [List.mem_reverse] at ha
      obtain ⟨y, hy, rfl⟩ := List.mem_map.mp ha
      rw [relOf_not_alloc (hacq y hy)]; simp
  have hrel4 : ∀ x ∈ (acq.map relOf).reverse, phase x = 4 := by
    intro x hx
    rw [List.mem_reverse] at hx
    obtain ⟨y, hy, rfl⟩ := List.mem_map.mp hx
    exact phase_relOf (hacq y hy)
  have hfree : (finish acq body s e).trace.filter isFree = (acq.map relOf).reverse := by
    unfold finish
    simp only [List.filter_append, hAf, hBf, hRf, List.nil_append]
  have halloc : (finish acq body s e).trace.filter isAlloc = acq := by
    unfold finish
    simp only [List.filter_append, hAa, hBa, hRa, List.append_nil, List.nil_append]
  refine ⟨by rw [hfree, halloc], by rw [hfree]; exact hsub, ?_⟩
  unfold finish
  rw [List.pairwise_append]
  refine ⟨?_, pairwise_phase_const _ 4 hrel4, ?_⟩
  · rw [List.pairwise_append]
    refine ⟨pairwise_phase_const _ 0 fun x hx => alloc_phase (hacq x hx), hbs, ?_⟩
    intro a ha b hb2
    rw [alloc_phase (hacq a ha)]; omega
  · intro a ha b hb2
    rw [hrel4 b hb2]
    rcases List.mem_append.mp ha with ha | ha
    · rw [alloc_phase (hacq a ha)]; omega
    · have := (hb a ha).2; omega

/-- There is no resource event in the main loop plus flush phases, and their
phases are bounded. -/
lemma mainFlush_bound (si : Int) (w : World) :
    ∀ x ∈ (readLoop si w.reads []).trace
        ++ (flushPhase w.flush (readLoop si w.reads []).samples).trace,
      1 ≤ phase x ∧ phase x ≤ 3 := by
  intro x hx
  rcases List.mem_append.mp hx with hx | hx
  · rw [readLoop_phase si w.reads [] x hx]; omega
  · have := flushPhase_bound w.flush (readLoop si w.reads []).samples x hx; omega

/-- The main loop strictly precedes both flush phases in the trace. -/
lemma mainFlush_sorted (si : Int) (w : World) :
    ((readLoop si w.reads []).trace
        ++ (flushPhase w.flush (readLoop si w.reads []).samples).trace).Pairwise
      (fun a b => phase a ≤ phase b) := by
  rw [List.pairwise_append]
  refine ⟨pairwise_phase_const _ 1 (readLoop_phase si w.reads []),
    flushPhase_sorted _ _, fun a ha b hb => ?_⟩
  rw [readLoop_phase si w.reads [] a ha]
  have := flushPhase_bound w.flush (readLoop si w.reads []).samples b hb
  omega

/-- Trace discipline of every `ExtractAudio` run: acquired resources are
released exactly once in LIFO order, the releases form a suffix pattern of
`fullRel`, and the whole trace is phase-ordered. -/
lemma ExtractAudio_trace_props (w : World) (si : Int) :
    (ExtractAudio w si).trace.filter isFree
        = (((ExtractAudio w si).trace.filter isAlloc).map relOf).reverse
    ∧ ((ExtractAudio w si).trace.filter isFree).Sublist fullRel
    ∧ (ExtractAudio w si).trace.Pairwise (fun a b => phase a ≤ phase b) := by
  unfold ExtractAudio
  repeat' split
  all_goals
    first
      | exact finish_props _ _ _ _ (by decide) (by decide) (by simp) (by simp)
      | exact finish_props _ _ _ _ (by decide) (by decide)
          (fun x hx => by rw [readLoop_phase si w.reads [] x hx]; omega)
          (pairwise_phase_const _ 1 (readLoop_phase si w.reads []))
      | exact finish_props _ _ _ _ (by decide) (by decide)
          (mainFlush_bound si w) (mainFlush_sorted si w)

/-- Every exit either returns the empty buffer or reports no error. -/
lemma ExtractAudio_err_samples (w : World) (si : Int) :
    (ExtractAudio w si).samples = [] ∨ (ExtractAudio w si).err = none := by
  unfold ExtractAudio
  repeat' split
  all_goals first
    | (left; rfl)
    | (right; rfl)

lemma flushPhase_drain_err (fs : FlushScript) (s : List Int) (e : ExtractErr)
    (hsend : fs.sendFlushErr = none ∨ fs.sendFlushErr = some FFErr.eof)
    (hre : (flushRecvLoop fs.recvs s).err = some e) :
    flushPhase fs s
      = ⟨Ev.sendFlush :: (flushRecvLoop fs.recvs s).trace,
         (flushRecvLoop fs.recvs s).samples, some e⟩ := by
  rw [flushPhase, if_pos hsend, hre]

lemma flushPhase_drain_ok (fs : FlushScript) (s : List Int)
    (hsend : fs.sendFlushErr = none ∨ fs.sendFlushErr = some FFErr.eof)
    (hre : (flushRecvLoop fs.recvs s).err = none) :
    flushPhase fs s
      = ⟨Ev.sendFlush :: (flushRecvLoop fs.recvs s).trace
           ++ (swrFlushStep fs.swrFlush (flushRecvLoop fs.recvs s).samples).trace,
         (swrFlushStep fs.swrFlush (flushRecvLoop fs.recvs s).samples).samples,
         (swrFlushStep fs.swrFlush (flushRecvLoop fs.recvs s).samples).err⟩ := by
  rw [flushPhase, if_pos hsend, hre]

/-- When the flush phases succeed and the resampler flush yields samples,
those samples end the final buffer. -/
lemma flushPhase_out (fs : FlushScript) (s xs : List Int)
    (hx : fs.swrFlush = RsOutcome.out xs) (he : (flushPhase fs s).err = none) :
    ∃ p, (flushPhase fs s).samples = p ++ xs := by
  by_cases hsend : fs.sendFlushErr = none ∨ fs.sendFlushErr = some FFErr.eof
  · cases hre : (flushRecvLoop fs.recvs s).err with
    | some e => rw [flushPhase_drain_err fs s e hsend hre] at he; simp at he
    | none =>
      rw [flushPhase_drain_ok fs s hsend hre]
      exact ⟨(flushRecvLoop fs.recvs s).samples, by simp [hx, swrFlushStep]⟩
  · rw [flushPhase, if_neg hsend] at he; simp at he

/-- Either the run aborts, or its buffer is the flush-phase result and the
flush phases succeeded. -/
lemma ExtractAudio_success_shape (w : World) (si : Int) :
    (ExtractAudio w si).err ≠ none
    ∨ ((ExtractAudio w si).samples
          = (flushPhase w.flush (readLoop si w.reads []).samples).samples
        ∧ (flushPhase w.flush (readLoop si w.reads []).samples).err = none) := by
  unfold ExtractAudio
  repeat' split
  all_goals first
    | (left; simp [finish]; done)
    | (right; next hre => exact ⟨rfl, hre⟩)

/-- A successful run whose resampler flush yields samples ends its returned
buffer with exactly those samples. -/
lemma ExtractAudio_out_suffix (w : World) (si : Int) :
    (ExtractAudio w si).err = none → ∀ xs, w.flush.swrFlush = RsOutcome.out xs →
      ∃ p, (ExtractAudio w si).samples = p ++ xs := by
  intro h xs hx
  rcases ExtractAudio_success_shape w si with h' | ⟨hs, he⟩
  · exact absurd h h'
  · rw [hs]
    exact flushPhase_out w.flush (readLoop si w.reads []).samples xs hx he

/-- Claim C1, counterexample: on a successful extraction every acquired
resource is released, but the deferred cleanups run in LIFO order of
acquisition — packet/frames, then the RESAMPLER, then the DECODER, then the
container — so the release sequence is not in the claimed order
packet/frame → decoder → resampler → container (it is not even a
subsequence of it). -/
theorem C1_release_order_counterexample :
    (ExtractAudio wOk 0).err = none
    ∧ ¬ ((ExtractAudio wOk 0).trace.filter isFree).Sublist
        [Ev.freePacket, Ev.freeDstFrame, Ev.freeSrcFrame,
         Ev.freeDecoder, Ev.freeResampler, Ev.closeContainer] := by
  exact ⟨by decide, by decide⟩

/-- Claim C1 as amended: on every exit path each acquired resource is
released exactly once before the call returns, in LIFO order of
acquisition — transient packet/frames first, then the resampler, then the
decoder, then the container session (a suffix pattern of `fullRel`). -/
theorem C1_release_order (w : World) (si : Int) :
    (ExtractAudio w si).trace.filter isFree
        = (((ExtractAudio w si).trace.filter isAlloc).map relOf).reverse
    ∧ ((ExtractAudio w si).trace.filter isFree).Sublist fullRel :=
  ⟨(ExtractAudio_trace_props w si).1, (ExtractAudio_trace_props w si).2.1⟩

/-- Claim C2: the whole trace is ordered by phase — every main-loop event
precedes every decoder-flush event, which precedes the resampler flush
(phases 1 < 2 < 3), so the phases never interleave; and on success any
samples yielded by the resampler flush form the tail of the returned
buffer, so no trailing buffered samples are dropped. -/
theorem C2_flush_phases (w : World) (si : Int) :
    (ExtractAudio w si).trace.Pairwise (fun a b => phase a ≤ phase b)
    ∧ ((ExtractAudio w si).err = none → ∀ xs, w.flush.swrFlush = RsOutcome.out xs →
        ∃ p, (ExtractAudio w si).samples = p ++ xs) :=
  ⟨(ExtractAudio_trace_props w si).2.2, ExtractAudio_out_suffix w si⟩

theorem C2_flush_phases_witness :
    (ExtractAudio wOk 0).err = none
    ∧ wOk.flush.swrFlush = RsOutcome.out [2]
    ∧ ∃ p, (ExtractAudio wOk 0).samples = p ++ [2] :=
  ⟨by decide, rfl, (C2_flush_phases wOk 0).2 (by decide) [2] rfl⟩

/-- Claim C3: any I/O, read, decode or resample failure aborts the whole
call — the returned buffer is empty whenever an error is returned. -/
theorem C3_no_partial_buffer (w : World) (si : Int)
    (h : (ExtractAudio w si).err ≠ none) :
    (ExtractAudio w si).samples = [] := by
  rcases ExtractAudio_err_samples w si with h' | h'
  · exact h'
  · exact absurd h' h

/-- A run that fails mid-read after having decoded samples `[5]`. -/
def wReadErr : World :=
  { wOk with
    reads := [ReadR.pkt ⟨0, none, [RecvR.frame (RsOutcome.out [5]), RecvR.err FFErr.eagain]⟩,
              ReadR.err FFErr.other] }

theorem C3_no_partial_buffer_witness :
    (ExtractAudio wReadErr 0).err = some ExtractErr.readingFrame
    ∧ (ExtractAudio wReadErr 0).samples = [] :=
  ⟨by decide, C3_no_partial_buffer wReadErr 0 (by decide)⟩

/-- All setup calls of `ExtractAudio` succeed: the container opens, the
requested stream exists and is audio with a registered decoder, and every
allocation succeeds. -/
def setupOK (w : World) (si : Int) : Prop :=
  w.allocFC = true ∧ w.openInput = none ∧ w.findStreamInfo = none ∧
    (∃ st, w.streams.find? (fun s => s.index == si) = some st
      ∧ st.isAudio = true ∧ st.hasDecoder = true) ∧
    w.allocCC = true ∧ w.toCodecCtx = none ∧ w.openCodec = none ∧
    w.allocSwr = true ∧ w.allocSrc = true ∧ w.allocDst = true ∧ w.allocPkt = true

/-- Claim C10: end-of-stream signals during the flush phases are normal
termination — if `SendPacket(nil)` reports EOF, the flush drain immediately
reports EOF (or EAGAIN), and the resampler flush reports EOF, the call still
succeeds and returns exactly the samples collected by the main loop. -/
theorem C10_flush_eof_tolerated (w : World) (si : Int)
    (hsetup : setupOK w si)
    (hmain : (readLoop si w.reads []).err = none)
    (hsend : w.flush.sendFlushErr = some FFErr.eof)
    (hdrain : w.flush.recvs = [RecvR.err FFErr.eof]
      ∨ w.flush.recvs = [RecvR.err FFErr.eagain])
    (hswr : w.flush.swrFlush = RsOutcome.convErr FFErr.eof) :
    (ExtractAudio w si).err = none
    ∧ (ExtractAudio w si).samples = (readLoop si w.reads []).samples := by
  obtain ⟨h1, h2, h3, ⟨st, hfind, hau, hdec⟩, h4, h5, h6, h7, h8, h9, h10⟩ := hsetup
  have hflush : flushPhase w.flush (readLoop si w.reads []).samples
      = ⟨[Ev.sendFlush, Ev.recvFlushFrame, Ev.resamplerFlush],
         (readLoop si w.reads []).samples, none⟩ := by
    rcases hdrain with hd | hd <;>
      rw [flushPhase, if_pos (Or.inr hsend), hd] <;>
      simp [flushRecvLoop, swrFlushStep, hswr]
  constructor <;>
    simp [ExtractAudio, finish, h1, h2, h3, hfind, hau, hdec, h4, h5, h6, h7, h8,
      h9, h10, hmain, hflush]

/-- A run whose flush phases all answer EOF, after a main loop that decoded
samples `[1, 2]`. -/
def wEofFlush : World :=
  { wOk with
    reads := [ReadR.pkt ⟨0, none, [RecvR.frame (RsOutcome.out [1, 2]), RecvR.err FFErr.eagain]⟩,
              ReadR.err FFErr.eof],
    flush := ⟨some FFErr.eof, [RecvR.err FFErr.eof], RsOutcome.convErr FFErr.eof⟩ }

theorem C10_flush_eof_tolerated_witness :
    wEofFlush.flush.sendFlushErr = some FFErr.eof
    ∧ wEofFlush.flush.swrFlush = RsOutcome.convErr FFErr.eof
    ∧ (ExtractAudio wEofFlush 0).err = none
    ∧ (ExtractAudio wEofFlush 0).samples = [1, 2] := by
  have h := C10_flush_eof_tolerated wEofFlush 0
    ⟨rfl, rfl, rfl, ⟨⟨0, true, true⟩, rfl, rfl, rfl⟩, rfl, rfl, rfl, rfl, rfl, rfl, rfl⟩
    (by decide) rfl (Or.inl rfl) rfl
  exact ⟨rfl, rfl, h.1, h.2.trans (by decide)⟩
